import Mathlib

/-!
Shallow embedding of `src/src/lib.rs` of the `rust_lzss` crate: a decoder for
the Nintendo LZSS10 and LZSS11 compressed formats.

The compressed stream (`Read + Seek`, read strictly forward) is modelled as a
`List Nat` of the bytes not yet consumed; every read returns the value modulo
256 together with the remaining suffix, mirroring the fact that the Rust
stream yields `u8` values.  Fallible Rust code (`Result<_, io::Error>`) is
modelled with `Except Err`; a Rust panic (an out-of-range `Vec` index in the
back-reference copy loop, which panics both in debug builds via the `usize`
subtraction overflow and in release builds via the bounds check) is modelled
as the distinguished error `Err.oob`.  The outer `while` loop of each decoder
is given explicit fuel; each iteration of the Rust loop consumes at least the
control byte from the stream, so fuel `s.length + 1` always suffices
(`lzss10Loop_fuel_sufficient` / `lzss11Loop_fuel_sufficient` below), and the
artificial `Err.outOfFuel` outcome is unreachable from the public entry
points.
-/

namespace Lzss

/-- Error outcomes of a decode call.  `eof` models `io::ErrorKind::UnexpectedEof`
from `read_u8` / `read_exact` / `read_u16` (the spec's `TruncatedStream` /
`MalformedHeader`); `invalidHeader` models the `"Invalid header"` error for an
unrecognized format tag (the spec's `UnsupportedFormat`); `sizeMismatch`
models the `"Decompressed size does not match expected size."` error;
`oob` models a Rust panic caused by an out-of-range index in the
back-reference copy; `outOfFuel` is an artifact of the fuelled loop encoding
and is proved unreachable. -/
inductive Err where
  | eof
  | invalidHeader
  | sizeMismatch
  | oob
  | outOfFuel
  deriving DecidableEq

/-- Reading one byte (`data.read_u8()`): the head of the remaining stream,
reduced modulo 256 because the Rust stream yields `u8` values. -/
def readU8 (s : List Nat) : Except Err (Nat × List Nat) :=
  match s with
  | [] => .error .eof
  | b :: rest => .ok (b % 256, rest)

/-- Reading one 16-bit big-endian value (`data.read_u16::<BigEndian>()`). -/
def readU16BE (s : List Nat) : Except Err (Nat × List Nat) :=
  match readU8 s with
  | .error e => .error e
  | .ok (hi, s1) =>
    match readU8 s1 with
    | .error e => .error e
    | .ok (lo, s2) => .ok (hi * 256 + lo, s2)

/-- Back-reference copy loop shared verbatim by both decoders:
`for _ in 0..count { let len = decompress_data.len();
let copy_data = decompress_data[len - disp as usize];
decompress_data.push(copy_data); }`.
The source position `len - disp` is recomputed after every single push, so
overlapping copies re-read bytes written by the same token.  When
`disp > len` (or `disp = 0`) the Rust indexing panics — the `usize`
subtraction underflows in debug builds and the wrapped index is out of bounds
in release builds — modelled by `Err.oob`.  Once `1 ≤ disp ≤ len` holds it
keeps holding as the buffer grows, so re-checking it at every iteration is
equivalent to the Rust behavior of panicking at the first bad access. -/
def copyBack (out : List Nat) (disp : Nat) : Nat → Except Err (List Nat)
  | 0 => .ok out
  | count + 1 =>
    if 1 ≤ disp ∧ disp ≤ out.length then
      copyBack (out ++ [out.getD (out.length - disp) 0]) disp count
    else .error .oob

/-- Bits of one control byte in the order produced by
`BitVec::from_bytes(&[b]).iter()`: most significant bit first. -/
def bitsOf (b : Nat) : List Bool :=
  [b.testBit 7, b.testBit 6, b.testBit 5, b.testBit 4,
   b.testBit 3, b.testBit 2, b.testBit 1, b.testBit 0]

/-- Body of the per-bit branch of `decompress_lzss10`: a set flag reads one
16-bit big-endian word `val` and copies `(val >> 0xC) + 3` bytes from
`(val & 0xFFF) + 1` bytes behind the end of the output; a clear flag reads
one literal byte and appends it. -/
def lzss10Step (s : List Nat) (out : List Nat) (bit : Bool) :
    Except Err (List Nat × List Nat) :=
  if bit then
    match readU16BE s with
    | .error e => .error e
    | .ok (val, s1) =>
      match copyBack out (val % 4096 + 1) (val / 4096 + 3) with
      | .error e => .error e
      | .ok out1 => .ok (out1, s1)
  else
    match readU8 s with
    | .error e => .error e
    | .ok (b, s1) => .ok (out ++ [b], s1)

/-- Back-reference field decoding of `decompress_lzss11`: the high nibble of
the first extra byte selects one of three tiers for `count`, and `disp` is
assembled from the low nibble of the last length byte plus one further byte.
The tier-1 accumulation happens in a Rust `u16`; the partial sums
`(v0 & 0xF) << 12 ≤ 0xF000`, `+ v1 << 4 ≤ 0xFFF0` and `+ v2 >> 4 ≤ 0xFFFF`
cannot overflow, but the final `+ 0x111` can, so the whole tier-1 sum is
reduced modulo 2^16.  No other arithmetic in either decoder can exceed
`u16::MAX` (tier 0 is at most 0x110, the short tier at most 0x10, and
`disp ≤ 0x1000`). -/
def lzss11Ref (s : List Nat) : Except Err (Nat × Nat × List Nat) :=
  match readU8 s with
  | .error e => .error e
  | .ok (v0, s1) =>
    if v0 / 16 = 0 then
      match readU8 s1 with
      | .error e => .error e
      | .ok (v1, s2) =>
        match readU8 s2 with
        | .error e => .error e
        | .ok (v2, s3) =>
          .ok (v0 * 16 + v1 / 16 + 0x11, ((v1 % 16) * 256 + v2 + 1, s3))
    else if v0 / 16 = 1 then
      match readU8 s1 with
      | .error e => .error e
      | .ok (v1, s2) =>
        match readU8 s2 with
        | .error e => .error e
        | .ok (v2, s3) =>
          match readU8 s3 with
          | .error e => .error e
          | .ok (v3, s4) =>
            .ok (((v0 % 16) * 4096 + v1 * 16 + v2 / 16 + 0x111) % 65536,
                 ((v2 % 16) * 256 + v3 + 1, s4))
    else
      match readU8 s1 with
      | .error e => .error e
      | .ok (v1, s2) =>
        .ok (v0 / 16 + 1, ((v0 % 16) * 256 + v1 + 1, s2))

/-- Body of the per-bit branch of `decompress_lzss11`: a set flag decodes a
variable-width back-reference via `lzss11Ref` and runs the shared copy loop;
a clear flag appends one literal byte. -/
def lzss11Step (s : List Nat) (out : List Nat) (bit : Bool) :
    Except Err (List Nat × List Nat) :=
  if bit then
    match lzss11Ref s with
    | .error e => .error e
    | .ok (count, disp, s1) =>
      match copyBack out disp count with
      | .error e => .error e
      | .ok out1 => .ok (out1, s1)
  else
    match readU8 s with
    | .error e => .error e
    | .ok (b, s1) => .ok (out ++ [b], s1)

/-- Inner `for bit in bits.iter()` loop of `decompress_lzss10`, including the
`if size <= decompress_data.len() { break; }` check after every token. -/
def lzss10Bits (size : Nat) :
    List Bool → List Nat → List Nat → Except Err (List Nat × List Nat)
  | [], s, out => .ok (out, s)
  | bit :: rest, s, out =>
    match lzss10Step s out bit with
    | .error e => .error e
    | .ok (out1, s1) =>
      if size ≤ out1.length then .ok (out1, s1)
      else lzss10Bits size rest s1 out1

/-- Inner `for bit in bits.iter()` loop of `decompress_lzss11`. -/
def lzss11Bits (size : Nat) :
    List Bool → List Nat → List Nat → Except Err (List Nat × List Nat)
  | [], s, out => .ok (out, s)
  | bit :: rest, s, out =>
    match lzss11Step s out bit with
    | .error e => .error e
    | .ok (out1, s1) =>
      if size ≤ out1.length then .ok (out1, s1)
      else lzss11Bits size rest s1 out1

/-- Outer `while decompress_data.len() < size` loop of `decompress_lzss10`,
with explicit fuel.  Every iteration consumes at least the control byte, so
fuel `s.length + 1` suffices (proved below). -/
def lzss10Loop (size : Nat) :
    Nat → List Nat → List Nat → Except Err (List Nat × List Nat)
  | 0, _, _ => .error .outOfFuel
  | fuel + 1, s, out =>
    if out.length < size then
      match readU8 s with
      | .error e => .error e
      | .ok (b, s1) =>
        match lzss10Bits size (bitsOf b) s1 out with
        | .error e => .error e
        | .ok (out2, s2) => lzss10Loop size fuel s2 out2
    else .ok (out, s)

/-- Outer `while decompress_data.len() < size` loop of `decompress_lzss11`. -/
def lzss11Loop (size : Nat) :
    Nat → List Nat → List Nat → Except Err (List Nat × List Nat)
  | 0, _, _ => .error .outOfFuel
  | fuel + 1, s, out =>
    if out.length < size then
      match readU8 s with
      | .error e => .error e
      | .ok (b, s1) =>
        match lzss11Bits size (bitsOf b) s1 out with
        | .error e => .error e
        | .ok (out2, s2) => lzss11Loop size fuel s2 out2
    else .ok (out, s)

/-- Rust `decompress_lzss10`: run the loop starting from an empty buffer, then
apply the final `if size <= decompress_data.len()` check, returning the
buffer on success and the "Decompressed size does not match expected size."
error otherwise.  The result also carries the unread remainder of the
stream. -/
def decompress_lzss10 (s : List Nat) (size : Nat) :
    Except Err (List Nat × List Nat) :=
  match lzss10Loop size (s.length + 1) s [] with
  | .error e => .error e
  | .ok (out, s') =>
    if size ≤ out.length then .ok (out, s') else .error .sizeMismatch

/-- Rust `decompress_lzss11`, analogous to `decompress_lzss10`. -/
def decompress_lzss11 (s : List Nat) (size : Nat) :
    Except Err (List Nat × List Nat) :=
  match lzss11Loop size (s.length + 1) s [] with
  | .error e => .error e
  | .ok (out, s') =>
    if size ≤ out.length then .ok (out, s') else .error .sizeMismatch

/-- Rust `decompress`: read the 1-byte format tag, then exactly 3 size bytes
(`read_exact(&mut data_size_tmp[0..3])`, equivalent to three byte reads —
an end of stream anywhere in the first 4 bytes yields the same
`UnexpectedEof` error).  The 4-byte buffer whose last byte stays 0 is
transmuted to `u32`; per the spec's design note this is the little-endian
24-bit value `b1 + 256*b2 + 65536*b3`.  Dispatch on the tag: 0x10 and 0x11
select the two decoders, anything else is the "Invalid header" error. -/
def decompress (s : List Nat) : Except Err (List Nat × List Nat) :=
  match readU8 s with
  | .error e => .error e
  | .ok (tag, s1) =>
    match readU8 s1 with
    | .error e => .error e
    | .ok (b1, s2) =>
      match readU8 s2 with
      | .error e => .error e
      | .ok (b2, s3) =>
        match readU8 s3 with
        | .error e => .error e
        | .ok (b3, s4) =>
          if tag = 0x10 then decompress_lzss10 s4 (b1 + 256 * b2 + 65536 * b3)
          else if tag = 0x11 then decompress_lzss11 s4 (b1 + 256 * b2 + 65536 * b3)
          else .error .invalidHeader

/-! ### Facts about the stream reads -/

theorem readU8_err {s : List Nat} {e : Err} (h : readU8 s = .error e) :
    e = .eof := by
  cases s with
  | nil => simpa [readU8] using h.symm
  | cons b t => simp [readU8] at h

theorem readU8_ok {s : List Nat} {b : Nat} {s' : List Nat}
    (h : readU8 s = .ok (b, s')) : b < 256 ∧ s'.length + 1 = s.length := by
  cases s with
  | nil => simp [readU8] at h
  | cons b0 t =>
    simp [readU8] at h
    obtain ⟨hb, hs⟩ := h
    subst hb; subst hs
    exact ⟨Nat.mod_lt _ (by norm_num), by simp⟩

theorem readU16BE_err {s : List Nat} {e : Err} (h : readU16BE s = .error e) :
    e = .eof := by
  match s with
  | [] => simpa [readU16BE, readU8] using h.symm
  | [b] => simpa [readU16BE, readU8] using h.symm
  | b :: c :: t => simp [readU16BE, readU8] at h

theorem readU16BE_ok {s : List Nat} {v : Nat} {s' : List Nat}
    (h : readU16BE s = .ok (v, s')) :
    v < 65536 ∧ s'.length + 2 = s.length := by
  match s with
  | [] => simp [readU16BE, readU8] at h
  | [b] => simp [readU16BE, readU8] at h
  | b :: c :: t =>
    simp [readU16BE, readU8] at h
    obtain ⟨hv, hs⟩ := h
    subst hv; subst hs
    have hb : b % 256 < 256 := Nat.mod_lt _ (by norm_num)
    have hc : c % 256 < 256 := Nat.mod_lt _ (by norm_num)
    exact ⟨by omega, by simp⟩

/-! ### Facts about the shared back-reference copy loop -/

theorem copyBack_err {count : Nat} :
    ∀ {out : List Nat} {disp : Nat} {e : Err},
      copyBack out disp count = .error e → e = .oob := by
  induction count with
  | zero => intro out disp e h; simp [copyBack] at h
  | succ n ih =>
    intro out disp e h
    rw [copyBack] at h
    split at h
    · exact ih h
    · simpa using h.symm

theorem copyBack_oob {out : List Nat} {disp : Nat} (count : Nat)
    (h : out.length < disp) : copyBack out disp (count + 1) = .error .oob := by
  rw [copyBack]
  rw [if_neg]
  omega

theorem getD_take_eq {w v : List Nat} {n m : Nat} (h : w.take n = v)
    (hm : m < n) : w.getD m 0 = v.getD m 0 := by
  subst h
  rw [List.getD_eq_getElem?_getD, List.getD_eq_getElem?_getD,
    List.getElem?_take_of_lt hm]

theorem copyBack_ok_spec (count : Nat) :
    ∀ (out : List Nat) (disp : Nat), 1 ≤ disp → disp ≤ out.length →
      ∃ w, copyBack out disp count = .ok w ∧
        w.length = out.length + count ∧
        w.take out.length = out ∧
        ∀ i, i < count →
          w.getD (out.length + i) 0 = w.getD (out.length + i - disp) 0 := by
  induction count with
  | zero =>
    intro out disp _ _
    exact ⟨out, rfl, by simp, by simp, fun i hi => absurd hi (by omega)⟩
  | succ n ih =>
    intro out disp h1 h2
    obtain ⟨w, hw, hlen, htake1, hrec⟩ :=
      ih (out ++ [out.getD (out.length - disp) 0]) disp h1 (by simp; omega)
    have hlen1 : (out ++ [out.getD (out.length - disp) 0]).length
        = out.length + 1 := by simp
    have htake0 : w.take out.length = out := by
      have hmin : w.take out.length
          = (w.take (out ++ [out.getD (out.length - disp) 0]).length).take
              out.length := by
        rw [List.take_take, hlen1]
        congr 1
        omega
      rw [hmin, htake1]
      exact List.take_left' rfl
    refine ⟨w, ?_, ?_, htake0, ?_⟩
    · rw [copyBack, if_pos ⟨h1, h2⟩]
      exact hw
    · rw [hlen, hlen1]; omega
    · intro i hi
      match i with
      | 0 =>
        have hcell : w.getD out.length 0 = out.getD (out.length - disp) 0 := by
          have h0 : w.getD out.length 0
              = (out ++ [out.getD (out.length - disp) 0]).getD out.length 0 :=
            getD_take_eq htake1 (by omega)
          rw [h0, List.getD_eq_getElem?_getD, List.getElem?_concat_length]
          rfl
        have hback : w.getD (out.length - disp) 0
            = out.getD (out.length - disp) 0 :=
          getD_take_eq htake0 (by omega)
        have goal0 : w.getD out.length 0 = w.getD (out.length - disp) 0 := by
          rw [hback]; exact hcell
        simpa using goal0
      | Nat.succ j =>
        have h := hrec j (by omega)
        rw [hlen1] at h
        have e2 : out.length + 1 + j = out.length + (j + 1) := by omega
        rw [e2] at h
        exact h

/-! ### Facts about the LZSS11 back-reference field decoder -/

theorem lzss11Ref_err {s : List Nat} {e : Err} (h : lzss11Ref s = .error e) :
    e = .eof := by
  match s with
  | [] => simpa [lzss11Ref, readU8] using h.symm
  | [b0] =>
    simp only [lzss11Ref, readU8] at h
    split at h
    · simpa using h.symm
    · split at h
      · simpa using h.symm
      · simpa using h.symm
  | [b0, b1] =>
    simp only [lzss11Ref, readU8] at h
    split at h
    · simpa using h.symm
    · split at h
      · simpa using h.symm
      · simp at h
  | [b0, b1, b2] =>
    simp only [lzss11Ref, readU8] at h
    split at h
    · simp at h
    · split at h
      · simpa using h.symm
      · simp at h
  | b0 :: b1 :: b2 :: b3 :: t =>
    simp only [lzss11Ref, readU8] at h
    split at h
    · simp at h
    · split at h
      · simp at h
      · simp at h

theorem lzss11Ref_ok {s : List Nat} {c d : Nat} {s' : List Nat}
    (h : lzss11Ref s = .ok (c, d, s')) :
    c < 65536 ∧ 1 ≤ d ∧ d ≤ 4096 ∧ s'.length ≤ s.length := by
  match s with
  | [] => simp [lzss11Ref, readU8] at h
  | [b0] =>
    simp only [lzss11Ref, readU8] at h
    split at h
    · simp at h
    · split at h
      · simp at h
      · simp at h
  | [b0, b1] =>
    simp only [lzss11Ref, readU8] at h
    split at h
    · simp at h
    · split at h
      · simp at h
      · simp at h
        obtain ⟨hc, hd, hs⟩ := h
        have hb0 : b0 % 256 < 256 := Nat.mod_lt _ (by norm_num)
        have hb1 : b1 % 256 < 256 := Nat.mod_lt _ (by norm_num)
        subst hc; subst hd; subst hs
        refine ⟨by omega, by omega, by omega, by simp only [List.length_cons, List.length_nil]; omega⟩
  | [b0, b1, b2] =>
    simp only [lzss11Ref, readU8] at h
    split at h
    · rename_i h0
      simp at h
      obtain ⟨hc, hd, hs⟩ := h
      have hb0 : b0 % 256 < 256 := Nat.mod_lt _ (by norm_num)
      have hb1 : b1 % 256 < 256 := Nat.mod_lt _ (by norm_num)
      have hb2 : b2 % 256 < 256 := Nat.mod_lt _ (by norm_num)
      subst hc; subst hd; subst hs
      refine ⟨by omega, by omega, by omega, by simp only [List.length_cons, List.length_nil]; omega⟩
    · split at h
      · simp at h
      · simp at h
        obtain ⟨hc, hd, hs⟩ := h
        have hb0 : b0 % 256 < 256 := Nat.mod_lt _ (by norm_num)
        have hb1 : b1 % 256 < 256 := Nat.mod_lt _ (by norm_num)
        subst hc; subst hd; subst hs
        refine ⟨by omega, by omega, by omega, by simp only [List.length_cons, List.length_nil]; omega⟩
  | b0 :: b1 :: b2 :: b3 :: t =>
    have hb0 : b0 % 256 < 256 := Nat.mod_lt _ (by norm_num)
    have hb1 : b1 % 256 < 256 := Nat.mod_lt _ (by norm_num)
    have hb2 : b2 % 256 < 256 := Nat.mod_lt _ (by norm_num)
    have hb3 : b3 % 256 < 256 := Nat.mod_lt _ (by norm_num)
    simp only [lzss11Ref, readU8] at h
    split at h
    · rename_i h0
      simp at h
      obtain ⟨hc, hd, hs⟩ := h
      subst hc; subst hd; subst hs
      refine ⟨by omega, by omega, by omega, by simp only [List.length_cons, List.length_nil]; omega⟩
    · split at h
      · simp at h
        obtain ⟨hc, hd, hs⟩ := h
        subst hc; subst hd; subst hs
        refine ⟨by omega, by omega, by omega, by simp only [List.length_cons, List.length_nil]; omega⟩
      · simp at h
        obtain ⟨hc, hd, hs⟩ := h
        subst hc; subst hd; subst hs
        refine ⟨by omega, by omega, by omega, by simp only [List.length_cons, List.length_nil]; omega⟩

/-! ### Facts about the per-bit token steps -/

theorem lzss10Step_err {s out : List Nat} {bit : Bool} {e : Err}
    (h : lzss10Step s out bit = .error e) : e = .eof ∨ e = .oob := by
  unfold lzss10Step at h
  split at h
  · split at h
    · rename_i e1 heq
      injection h with h
      subst h
      exact Or.inl (readU16BE_err heq)
    · rename_i val s1 heq
      split at h
      · rename_i e1 hcb
        injection h with h
        subst h
        exact Or.inr (copyBack_err hcb)
      · simp at h
  · split at h
    · rename_i e1 heq
      injection h with h
      subst h
      exact Or.inl (readU8_err heq)
    · simp at h

theorem lzss10Step_ok_length {s out : List Nat} {bit : Bool}
    {out1 s1 : List Nat} (h : lzss10Step s out bit = .ok (out1, s1)) :
    s1.length ≤ s.length := by
  unfold lzss10Step at h
  split at h
  · split at h
    · simp at h
    · rename_i val sv heq
      split at h
      · simp at h
      · simp at h
        obtain ⟨h1, h2⟩ := h
        subst h2
        have := readU16BE_ok heq
        omega
  · split at h
    · simp at h
    · rename_i b sb heq
      simp at h
      obtain ⟨h1, h2⟩ := h
      subst h2
      have := readU8_ok heq
      omega

theorem lzss11Step_err {s out : List Nat} {bit : Bool} {e : Err}
    (h : lzss11Step s out bit = .error e) : e = .eof ∨ e = .oob := by
  unfold lzss11Step at h
  split at h
  · split at h
    · rename_i e1 heq
      injection h with h
      subst h
      exact Or.inl (lzss11Ref_err heq)
    · rename_i count disp s1 heq
      split at h
      · rename_i e1 hcb
        injection h with h
        subst h
        exact Or.inr (copyBack_err hcb)
      · simp at h
  · split at h
    · rename_i e1 heq
      injection h with h
      subst h
      exact Or.inl (readU8_err heq)
    · simp at h

theorem lzss11Step_ok_length {s out : List Nat} {bit : Bool}
    {out1 s1 : List Nat} (h : lzss11Step s out bit = .ok (out1, s1)) :
    s1.length ≤ s.length := by
  unfold lzss11Step at h
  split at h
  · split at h
    · simp at h
    · rename_i count disp sv heq
      split at h
      · simp at h
      · simp at h
        obtain ⟨h1, h2⟩ := h
        subst h2
        exact (lzss11Ref_ok heq).2.2.2
  · split at h
    · simp at h
    · rename_i b sb heq
      simp at h
      obtain ⟨h1, h2⟩ := h
      subst h2
      have := readU8_ok heq
      omega

/-! ### Facts about the inner eight-bit loops -/

theorem lzss10Bits_err {size : Nat} {bits : List Bool} :
    ∀ {s out : List Nat} {e : Err},
      lzss10Bits size bits s out = .error e → e = .eof ∨ e = .oob := by
  induction bits with
  | nil => intro s out e h; simp [lzss10Bits] at h
  | cons bit rest ih =>
    intro s out e h
    simp only [lzss10Bits] at h
    split at h
    · rename_i e1 heq
      injection h with h
      subst h
      exact lzss10Step_err heq
    · rename_i out1 s1 heq
      split at h
      · simp at h
      · exact ih h

theorem lzss10Bits_ok_length {size : Nat} {bits : List Bool} :
    ∀ {s out out1 s1 : List Nat},
      lzss10Bits size bits s out = .ok (out1, s1) → s1.length ≤ s.length := by
  induction bits with
  | nil =>
    intro s out out1 s1 h
    simp [lzss10Bits] at h
    obtain ⟨h1, h2⟩ := h
    subst h2
    exact le_refl _
  | cons bit rest ih =>
    intro s out out1 s1 h
    simp only [lzss10Bits] at h
    split at h
    · simp at h
    · rename_i out2 s2 heq
      have hs2 := lzss10Step_ok_length heq
      split at h
      · simp at h
        obtain ⟨h1, h2⟩ := h
        subst h2
        exact hs2
      · exact le_trans (ih h) hs2

theorem lzss11Bits_err {size : Nat} {bits : List Bool} :
    ∀ {s out : List Nat} {e : Err},
      lzss11Bits size bits s out = .error e → e = .eof ∨ e = .oob := by
  induction bits with
  | nil => intro s out e h; simp [lzss11Bits] at h
  | cons bit rest ih =>
    intro s out e h
    simp only [lzss11Bits] at h
    split at h
    · rename_i e1 heq
      injection h with h
      subst h
      exact lzss11Step_err heq
    · rename_i out1 s1 heq
      split at h
      · simp at h
      · exact ih h

theorem lzss11Bits_ok_length {size : Nat} {bits : List Bool} :
    ∀ {s out out1 s1 : List Nat},
      lzss11Bits size bits s out = .ok (out1, s1) → s1.length ≤ s.length := by
  induction bits with
  | nil =>
    intro s out out1 s1 h
    simp [lzss11Bits] at h
    obtain ⟨h1, h2⟩ := h
    subst h2
    exact le_refl _
  | cons bit rest ih =>
    intro s out out1 s1 h
    simp only [lzss11Bits] at h
    split at h
    · simp at h
    · rename_i out2 s2 heq
      have hs2 := lzss11Step_ok_length heq
      split at h
      · simp at h
        obtain ⟨h1, h2⟩ := h
        subst h2
        exact hs2
      · exact le_trans (ih h) hs2

/-! ### Facts about the outer while loops -/

theorem lzss10Loop_ok_size {size : Nat} {fuel : Nat} :
    ∀ {s out : List Nat} {out1 s1 : List Nat},
      lzss10Loop size fuel s out = .ok (out1, s1) → size ≤ out1.length := by
  induction fuel with
  | zero => intro s out out1 s1 h; simp [lzss10Loop] at h
  | succ n ih =>
    intro s out out1 s1 h
    simp only [lzss10Loop] at h
    split at h
    · split at h
      · simp at h
      · rename_i b sb heq
        split at h
        · simp at h
        · exact ih h
    · rename_i hge
      simp at h
      obtain ⟨h1, h2⟩ := h
      subst h1
      omega

theorem lzss10Loop_err {size : Nat} {fuel : Nat} :
    ∀ {s out : List Nat} {e : Err},
      lzss10Loop size fuel s out = .error e →
        e = .eof ∨ e = .oob ∨ e = .outOfFuel := by
  induction fuel with
  | zero =>
    intro s out e h
    simp only [lzss10Loop] at h
    injection h with h
    subst h
    exact Or.inr (Or.inr rfl)
  | succ n ih =>
    intro s out e h
    simp only [lzss10Loop] at h
    split at h
    · split at h
      · rename_i e1 heq
        injection h with h
        subst h
        exact Or.inl (readU8_err heq)
      · rename_i b sb heq
        split at h
        · rename_i e1 heq2
          injection h with h
          subst h
          rcases lzss10Bits_err heq2 with h | h
          · exact Or.inl h
          · exact Or.inr (Or.inl h)
        · exact ih h
    · simp at h

theorem lzss10Loop_fuel_sufficient {size : Nat} {fuel : Nat} :
    ∀ {s out : List Nat}, s.length < fuel →
      lzss10Loop size fuel s out ≠ .error .outOfFuel := by
  induction fuel with
  | zero => intro s out hlt; omega
  | succ n ih =>
    intro s out hlt
    simp only [lzss10Loop]
    split
    · split
      · rename_i e heq
        intro hc
        injection hc with hc
        subst hc
        have := readU8_err heq
        simp at this
      · rename_i b sb heq
        split
        · rename_i e heq2
          intro hc
          injection hc with hc
          subst hc
          rcases lzss10Bits_err heq2 with h | h <;> simp at h
        · rename_i out2 s2 heq2
          apply ih
          obtain ⟨_, h1⟩ := readU8_ok heq
          have h2 := lzss10Bits_ok_length heq2
          omega
    · simp

theorem lzss11Loop_ok_size {size : Nat} {fuel : Nat} :
    ∀ {s out : List Nat} {out1 s1 : List Nat},
      lzss11Loop size fuel s out = .ok (out1, s1) → size ≤ out1.length := by
  induction fuel with
  | zero => intro s out out1 s1 h; simp [lzss11Loop] at h
  | succ n ih =>
    intro s out out1 s1 h
    simp only [lzss11Loop] at h
    split at h
    · split at h
      · simp at h
      · rename_i b sb heq
        split at h
        · simp at h
        · exact ih h
    · rename_i hge
      simp at h
      obtain ⟨h1, h2⟩ := h
      subst h1
      omega

theorem lzss11Loop_err {size : Nat} {fuel : Nat} :
    ∀ {s out : List Nat} {e : Err},
      lzss11Loop size fuel s out = .error e →
        e = .eof ∨ e = .oob ∨ e = .outOfFuel := by
  induction fuel with
  | zero =>
    intro s out e h
    simp only [lzss11Loop] at h
    injection h with h
    subst h
    exact Or.inr (Or.inr rfl)
  | succ n ih =>
    intro s out e h
    simp only [lzss11Loop] at h
    split at h
    · split at h
      · rename_i e1 heq
        injection h with h
        subst h
        exact Or.inl (readU8_err heq)
      · rename_i b sb heq
        split at h
        · rename_i e1 heq2
          injection h with h
          subst h
          rcases lzss11Bits_err heq2 with h | h
          · exact Or.inl h
          · exact Or.inr (Or.inl h)
        · exact ih h
    · simp at h

theorem lzss11Loop_fuel_sufficient {size : Nat} {fuel : Nat} :
    ∀ {s out : List Nat}, s.length < fuel →
      lzss11Loop size fuel s out ≠ .error .outOfFuel := by
  induction fuel with
  | zero => intro s out hlt; omega
  | succ n ih =>
    intro s out hlt
    simp only [lzss11Loop]
    split
    · split
      · rename_i e heq
        intro hc
        injection hc with hc
        subst hc
        have := readU8_err heq
        simp at this
      · rename_i b sb heq
        split
        · rename_i e heq2
          intro hc
          injection hc with hc
          subst hc
          rcases lzss11Bits_err heq2 with h | h <;> simp at h
        · rename_i out2 s2 heq2
          apply ih
          obtain ⟨_, h1⟩ := readU8_ok heq
          have h2 := lzss11Bits_ok_length heq2
          omega
    · simp

/-! ### Facts about the decompression entry points -/

theorem decompress_lzss10_ok_size {s : List Nat} {size : Nat}
    {out s1 : List Nat} (h : decompress_lzss10 s size = .ok (out, s1)) :
    size ≤ out.length := by
  unfold decompress_lzss10 at h
  split at h
  · simp at h
  · rename_i out1 sv heq
    split at h
    · rename_i hge
      simp at h
      obtain ⟨h1, h2⟩ := h
      subst h1
      exact hge
    · simp at h

theorem decompress_lzss11_ok_size {s : List Nat} {size : Nat}
    {out s1 : List Nat} (h : decompress_lzss11 s size = .ok (out, s1)) :
    size ≤ out.length := by
  unfold decompress_lzss11 at h
  split at h
  · simp at h
  · rename_i out1 sv heq
    split at h
    · rename_i hge
      simp at h
      obtain ⟨h1, h2⟩ := h
      subst h1
      exact hge
    · simp at h

theorem decompress_lzss10_ne_sizeMismatch (s : List Nat) (size : Nat) :
    decompress_lzss10 s size ≠ .error .sizeMismatch := by
  unfold decompress_lzss10
  split
  · rename_i e heq
    intro hc
    injection hc with hc
    subst hc
    rcases lzss10Loop_err heq with h | h | h <;> simp at h
  · rename_i out1 sv heq
    have := lzss10Loop_ok_size heq
    rw [if_pos this]
    simp

theorem decompress_lzss11_ne_sizeMismatch (s : List Nat) (size : Nat) :
    decompress_lzss11 s size ≠ .error .sizeMismatch := by
  unfold decompress_lzss11
  split
  · rename_i e heq
    intro hc
    injection hc with hc
    subst hc
    rcases lzss11Loop_err heq with h | h | h <;> simp at h
  · rename_i out1 sv heq
    have := lzss11Loop_ok_size heq
    rw [if_pos this]
    simp

/-! ### Claim theorems -/

/-- C1 (code behavior at the failing input): the header of the stream
`[0x10, 0x02, 0x00, 0x00, 0x40, 0x61, 0x00, 0x00]` declares `target_size = 2`,
yet the back-reference token `00 00` (3 copies at distance 1) carries the
output from 1 byte to 4 bytes, past the target; the final check of
`decompress_lzss10` is `size <= len`, so `decompress` returns Ok with a
4-byte buffer whose length differs from `target_size` instead of failing
with the SizeMismatch error, contradicting the claim that a successful
decompress always returns exactly `target_size` bytes. -/
theorem c1_overshoot_returns_ok :
    decompress [16, 2, 0, 0, 64, 97, 0, 0] = .ok ([97, 97, 97, 97], []) ∧
    ([97, 97, 97, 97] : List Nat).length ≠ 2 :=
  ⟨rfl, by decide⟩

/-- C2 counterexample: on the stream
`[0x10, 0x01, 0x00, 0x00, 0x80, 0x00, 0x00]` the first token is a
back-reference with distance 1 against a still-empty output buffer; the
decoder does not surface an InvalidBackReference error (no such error exists
anywhere in the code) — the copy indexes out of bounds and the Rust code
panics, modelled as `Err.oob`. -/
theorem c2_invalid_backref_counterexample :
    decompress [16, 1, 0, 0, 128, 0, 0] = .error .oob ∧
    copyBack [] 1 3 = .error .oob :=
  ⟨rfl, rfl⟩

/-- C2 amended: for every back-reference token (in either decoder) whose
computed distance exceeds the current output length and whose copy length is
nonzero, the copy loop's very first indexing operation is out of range and
the Rust code panics (modelled as the `Err.oob` outcome) — surfaced
immediately, with no byte read from out of bounds and no
InvalidBackReference error, which the code does not have. -/
theorem c2_backref_out_of_range :
    (∀ (out : List Nat) (disp n : Nat), out.length < disp →
      copyBack out disp (n + 1) = .error .oob) ∧
    (∀ (hi lo : Nat) (r out : List Nat),
      out.length < ((hi % 256) * 256 + lo % 256) % 4096 + 1 →
      lzss10Step (hi :: lo :: r) out true = .error .oob) ∧
    (∀ (s out : List Nat) (c d : Nat) (s1 : List Nat),
      lzss11Ref s = .ok (c, d, s1) → out.length < d → 0 < c →
      lzss11Step s out true = .error .oob) := by
  refine ⟨fun out disp n h => copyBack_oob n h, ?_, ?_⟩
  · intro hi lo r out h
    have hread : readU16BE (hi :: lo :: r)
        = .ok ((hi % 256) * 256 + lo % 256, r) := by
      simp [readU16BE, readU8]
    have h3 : ((hi % 256) * 256 + lo % 256) / 4096 + 3
        = (((hi % 256) * 256 + lo % 256) / 4096 + 2) + 1 := rfl
    simp only [lzss10Step, if_pos, hread, h3]
    rw [copyBack_oob _ h]
  · intro s out c d s1 h hlt hc
    obtain ⟨m, rfl⟩ : ∃ m, c = m + 1 := ⟨c - 1, by omega⟩
    simp [lzss11Step, h, copyBack_oob m hlt]

/-- C2 witness: concrete instances of the amended claim — distance 2 against
an empty buffer, the LZSS10 token D0 03 (distance 4) against an empty
buffer, and the LZSS11 short-form token F0 03 (length 16, distance 4)
against an empty buffer, all ending in the modelled panic. -/
theorem c2_backref_out_of_range_witness :
    copyBack [] 2 1 = .error .oob ∧
    lzss10Step [208, 3] [] true = .error .oob ∧
    lzss11Step [240, 3] [] true = .error .oob :=
  ⟨c2_backref_out_of_range.1 [] 2 0 (by decide),
   c2_backref_out_of_range.2.1 208 3 [] [] (by decide),
   c2_backref_out_of_range.2.2 [240, 3] [] 16 4 [] rfl (by decide) (by decide)⟩

/-- C3 (code behavior at the failing input): for the LZSS11 longest-length
token with bytes 1F FF FF followed by distance byte 00, the claimed formula
`((val & 0xF) << 12) + (byte2 << 4) + (byte3 >> 4) + 0x111` demands length
65808, but the code accumulates the length in a `u16`, so the released code
wraps it to 272 (and a build with overflow checks panics): the decoded
length differs from the claimed three-tier formula. -/
theorem c3_tier1_formula_fails :
    lzss11Ref [31, 255, 255, 0] = .ok (272, (3841, [])) ∧
    (31 % 16) * 4096 + 255 * 16 + 255 / 16 + 0x111 = 65808 ∧
    (272 : Nat) ≠ 65808 :=
  ⟨rfl, by norm_num, by decide⟩

/-- C4: in the LZSS10 decoder a set flag bit reads the 16-bit big-endian
value `val = hi * 256 + lo` and appends exactly `val / 4096 + 3` bytes
(always between 3 and 18), each copied `val % 4096 + 1` bytes (between 1 and
4096) behind the current end of the output, with the source position
recomputed after each single appended byte — expressed by the recurrence
`w[len0 + i] = w[len0 + i - disp]` over the final buffer `w`, which is what
makes overlapping self-referential copies reproduce the repeating pattern. -/
theorem c4_lzss10_backref (hi lo : Nat) (r out : List Nat)
    (hhi : hi < 256) (hlo : lo < 256)
    (hdisp : (hi * 256 + lo) % 4096 + 1 ≤ out.length) :
    3 ≤ (hi * 256 + lo) / 4096 + 3 ∧ (hi * 256 + lo) / 4096 + 3 ≤ 18 ∧
    1 ≤ (hi * 256 + lo) % 4096 + 1 ∧ (hi * 256 + lo) % 4096 + 1 ≤ 4096 ∧
    ∃ w, lzss10Step (hi :: lo :: r) out true = .ok (w, r) ∧
      w.length = out.length + ((hi * 256 + lo) / 4096 + 3) ∧
      w.take out.length = out ∧
      ∀ i, i < (hi * 256 + lo) / 4096 + 3 →
        w.getD (out.length + i) 0
          = w.getD (out.length + i - ((hi * 256 + lo) % 4096 + 1)) 0 := by
  refine ⟨by omega, by omega, by omega, by omega, ?_⟩
  obtain ⟨w, hw, hlen, htake, hrec⟩ :=
    copyBack_ok_spec ((hi * 256 + lo) / 4096 + 3) out
      ((hi * 256 + lo) % 4096 + 1) (by omega) hdisp
  refine ⟨w, ?_, hlen, htake, hrec⟩
  have hread : readU16BE (hi :: lo :: r) = .ok (hi * 256 + lo, r) := by
    simp [readU16BE, readU8, Nat.mod_eq_of_lt hhi, Nat.mod_eq_of_lt hlo]
  simp [lzss10Step, hread, hw]

/-- C4 witness: the doc-example token D0 03 (length 16, distance 4) applied
to the output buffer "abcd". -/
theorem c4_lzss10_backref_witness :
    3 ≤ (208 * 256 + 3) / 4096 + 3 ∧ (208 * 256 + 3) / 4096 + 3 ≤ 18 ∧
    1 ≤ (208 * 256 + 3) % 4096 + 1 ∧ (208 * 256 + 3) % 4096 + 1 ≤ 4096 ∧
    ∃ w, lzss10Step (208 :: 3 :: []) [97, 98, 99, 100] true = .ok (w, []) ∧
      w.length = [97, 98, 99, 100].length + ((208 * 256 + 3) / 4096 + 3) ∧
      w.take [97, 98, 99, 100].length = [97, 98, 99, 100] ∧
      ∀ i, i < (208 * 256 + 3) / 4096 + 3 →
        w.getD ([97, 98, 99, 100].length + i) 0
          = w.getD ([97, 98, 99, 100].length + i - ((208 * 256 + 3) % 4096 + 1)) 0 :=
  c4_lzss10_backref 208 3 [] [97, 98, 99, 100] (by decide) (by decide) (by decide)

/-- C5: `decompress` consumes exactly 4 header bytes — one format tag and
three size bytes assembled as the little-endian 24-bit value
`b1 + 256 * b2 + 65536 * b3` (the selected decoder starts right at the 5th
byte, so no 4th size byte is read) — and any stream shorter than 4 bytes,
in particular the 1-byte stream [0x00], fails with the end-of-stream error
and returns no data. -/
theorem c5_header :
    (∀ s : List Nat, s.length < 4 → decompress s = .error .eof) ∧
    (∀ b0 b1 b2 b3 : Nat, ∀ r : List Nat,
      b0 < 256 → b1 < 256 → b2 < 256 → b3 < 256 →
      decompress (b0 :: b1 :: b2 :: b3 :: r) =
        if b0 = 16 then decompress_lzss10 r (b1 + 256 * b2 + 65536 * b3)
        else if b0 = 17 then decompress_lzss11 r (b1 + 256 * b2 + 65536 * b3)
        else .error .invalidHeader) := by
  constructor
  · intro s hlen
    match s with
    | [] => rfl
    | [a] => rfl
    | [a, b] => rfl
    | [a, b, c] => rfl
    | a :: b :: c :: d :: t => simp only [List.length_cons] at hlen; omega
  · intro b0 b1 b2 b3 r h0 h1 h2 h3
    simp [decompress, readU8, Nat.mod_eq_of_lt h0, Nat.mod_eq_of_lt h1,
      Nat.mod_eq_of_lt h2, Nat.mod_eq_of_lt h3]

/-- C5 witness: the 1-byte stream [0x00] fails with the end-of-stream error,
and the header 10 14 00 00 dispatches to the LZSS10 decoder with
target_size 20 and an empty token stream. -/
theorem c5_header_witness :
    decompress [0] = .error .eof ∧
    decompress [16, 20, 0, 0] =
      (if 16 = 16 then decompress_lzss10 [] (20 + 256 * 0 + 65536 * 0)
       else if 16 = 17 then decompress_lzss11 [] (20 + 256 * 0 + 65536 * 0)
       else .error .invalidHeader) :=
  ⟨c5_header.1 [0] (by decide),
   c5_header.2 16 20 0 0 [] (by decide) (by decide) (by decide) (by decide)⟩

/-- C6: for every stream of at least 4 bytes whose first byte is neither
0x10 nor 0x11, `decompress` fails immediately with the "Invalid header"
error (the spec's UnsupportedFormat), producing no output. -/
theorem c6_unsupported_format (b0 b1 b2 b3 : Nat) (r : List Nat)
    (h0 : b0 < 256) (h16 : b0 ≠ 16) (h17 : b0 ≠ 17) :
    decompress (b0 :: b1 :: b2 :: b3 :: r) = .error .invalidHeader := by
  simp [decompress, readU8, Nat.mod_eq_of_lt h0, h16, h17]

/-- C6 witness: a stream with format tag 0x00. -/
theorem c6_unsupported_format_witness :
    decompress [0, 1, 2, 3] = .error .invalidHeader :=
  c6_unsupported_format 0 1 2 3 [] (by decide) (by decide) (by decide)

/-- C7: when the stream is exhausted while the output is still short of
`target_size`, both decoders fail with the end-of-stream error (the spec's
TruncatedStream) — at a missing control byte (first two conjuncts) and
inside a partially present back-reference word (third conjunct) — and a
successful decode never returns a buffer shorter than `target_size` (last
two conjuncts). -/
theorem c7_truncated_stream :
    (∀ size : Nat, 0 < size → decompress_lzss10 [] size = .error .eof) ∧
    (∀ size : Nat, 0 < size → decompress_lzss11 [] size = .error .eof) ∧
    (∀ (b : Nat) (out : List Nat), lzss10Step [b] out true = .error .eof) ∧
    (∀ s : List Nat, ∀ size : Nat, ∀ out s1 : List Nat,
      decompress_lzss10 s size = .ok (out, s1) → size ≤ out.length) ∧
    (∀ s : List Nat, ∀ size : Nat, ∀ out s1 : List Nat,
      decompress_lzss11 s size = .ok (out, s1) → size ≤ out.length) := by
  refine ⟨?_, ?_, ?_, fun s size out s1 h => decompress_lzss10_ok_size h,
    fun s size out s1 h => decompress_lzss11_ok_size h⟩
  · intro size hpos
    unfold decompress_lzss10
    simp [lzss10Loop, readU8, hpos]
  · intro size hpos
    unfold decompress_lzss11
    simp [lzss11Loop, readU8, hpos]
  · intro b out
    simp [lzss10Step, readU16BE, readU8]

/-- C7 witness: an empty token stream with target_size 1 for both decoders,
a one-byte back-reference word, and a successful 1-byte literal decode. -/
theorem c7_truncated_stream_witness :
    decompress_lzss10 [] 1 = .error .eof ∧
    decompress_lzss11 [] 1 = .error .eof ∧
    lzss10Step [208] [] true = .error .eof ∧
    1 ≤ ([97] : List Nat).length :=
  ⟨c7_truncated_stream.1 1 (by decide),
   c7_truncated_stream.2.1 1 (by decide),
   c7_truncated_stream.2.2.1 208 [],
   c7_truncated_stream.2.2.2.1 [0, 97] 1 [97] [] rfl⟩

/-- C8: for every stream whose header has a valid format tag (0x10 or 0x11)
and declares target_size = 0, `decompress` returns Ok with an empty buffer
and consumes no token bytes: the whole rest of the stream is returned
unread. -/
theorem c8_zero_target_size :
    ∀ r : List Nat,
      decompress (16 :: 0 :: 0 :: 0 :: r) = .ok ([], r) ∧
      decompress (17 :: 0 :: 0 :: 0 :: r) = .ok ([], r) :=
  fun r => ⟨rfl, rfl⟩

/-- C9: neither decoder can ever return the "Decompressed size does not match
expected size." error: the while loop hands back the buffer only once its
length has reached `size` (first two conjuncts), so the trailing
`size <= decompress_data.len()` check always passes and the error branch is
dead code (last two conjuncts). -/
theorem c9_size_mismatch_unreachable :
    (∀ size fuel : Nat, ∀ s out out1 s1 : List Nat,
      lzss10Loop size fuel s out = .ok (out1, s1) → size ≤ out1.length) ∧
    (∀ size fuel : Nat, ∀ s out out1 s1 : List Nat,
      lzss11Loop size fuel s out = .ok (out1, s1) → size ≤ out1.length) ∧
    (∀ s : List Nat, ∀ size : Nat,
      decompress_lzss10 s size ≠ .error .sizeMismatch) ∧
    (∀ s : List Nat, ∀ size : Nat,
      decompress_lzss11 s size ≠ .error .sizeMismatch) :=
  ⟨fun _ _ _ _ _ _ h => lzss10Loop_ok_size h,
   fun _ _ _ _ _ _ h => lzss11Loop_ok_size h,
   decompress_lzss10_ne_sizeMismatch,
   decompress_lzss11_ne_sizeMismatch⟩

/-- C9 witness: the trivial loop exit at target 0 and a concrete
non-SizeMismatch result. -/
theorem c9_size_mismatch_unreachable_witness :
    0 ≤ ([] : List Nat).length ∧
    decompress_lzss10 [] 0 ≠ .error .sizeMismatch :=
  ⟨c9_size_mismatch_unreachable.1 0 1 [] [] [] [] rfl,
   c9_size_mismatch_unreachable.2.2.1 [] 0⟩

/-- C10: in the LZSS11 longest-length tier the length is accumulated in a
`u16`: whenever the raw 16-bit field `(v0 & 0xF) << 12 + v1 << 4 + v2 >> 4`
exceeds 0xFEEE, adding the bias 0x111 exceeds 65535 and the release build
wraps modulo 2^16, producing exactly `raw + 0x111 - 65536`; consequently no
token ever yields a length above 65535. -/
theorem c10_tier1_u16_wrap :
    (∀ v0 v1 v2 v3 : Nat, ∀ r : List Nat,
      v0 < 256 → v1 < 256 → v2 < 256 → v3 < 256 →
      v0 / 16 = 1 →
      0xFEEE < (v0 % 16) * 4096 + v1 * 16 + v2 / 16 →
      lzss11Ref (v0 :: v1 :: v2 :: v3 :: r) =
        .ok ((v0 % 16) * 4096 + v1 * 16 + v2 / 16 + 0x111 - 65536,
             ((v2 % 16) * 256 + v3 + 1, r))) ∧
    (∀ s : List Nat, ∀ c d : Nat, ∀ s1 : List Nat,
      lzss11Ref s = .ok (c, d, s1) → c < 65536) := by
  constructor
  · intro v0 v1 v2 v3 r h0 h1 h2 h3 hind hbig
    have hne : ¬ (v0 / 16 = 0) := by omega
    simp [lzss11Ref, readU8, Nat.mod_eq_of_lt h0, Nat.mod_eq_of_lt h1,
      Nat.mod_eq_of_lt h2, Nat.mod_eq_of_lt h3, hne, hind]
    omega
  · intro s c d s1 h
    exact (lzss11Ref_ok h).1

/-- C10 witness: the maximal raw field 0xFFFF (token bytes 1F FF FF) wraps
to length 272. -/
theorem c10_tier1_u16_wrap_witness :
    lzss11Ref (31 :: 255 :: 255 :: 0 :: []) =
      .ok ((31 % 16) * 4096 + 255 * 16 + 255 / 16 + 0x111 - 65536,
           ((255 % 16) * 256 + 0 + 1, [])) :=
  c10_tier1_u16_wrap.1 31 255 255 0 [] (by decide) (by decide) (by decide)
    (by decide) (by decide) (by decide)

end Lzss
